import Mathlib

/-!
Verification of the finance-data-pipeline core (transform.py and
queries.py) against its specification. The pandas column-wise operations
are embedded as per-value Lean functions, mapped over lists of records;
the external library parsers (`pd.to_datetime`) are abstracted as
function parameters, with concrete instances used for witnesses.
-/

set_option linter.unusedVariables false

namespace FinPipe

/-! ### Text Normalizer (`_clean_text`) -/

/-- ASCII whitespace class of the Python regex `\s` used by
`_clean_text`'s collapsing pattern. -/
def isPySpace (c : Char) : Bool :=
  c == ' ' || c == '\t' || c == '\n' || c == '\r' || c == '\x0b' || c == '\x0c'

/-- Splits a character list into its maximal whitespace-free words
(accumulating the current word in reverse). Collapsing `\s+` runs to a
single space and then stripping the ends is the same as re-joining these
words with single spaces. -/
def splitWsRev : List Char → List Char → List (List Char)
  | [], cur => if cur = [] then [] else [cur.reverse]
  | c :: cs, cur =>
    if isPySpace c then
      if cur = [] then splitWsRev cs [] else cur.reverse :: splitWsRev cs []
    else splitWsRev cs (c :: cur)

/-- Joins words with single spaces. -/
def joinWords : List (List Char) → List Char
  | [] => []
  | [w] => w
  | w :: v :: ws => w ++ ' ' :: joinWords (v :: ws)

/-- `_clean_text` on one value (the source maps it over a whole column):
missing values became empty strings upstream, whitespace runs collapse to
one space, leading/trailing whitespace is stripped. -/
def clean_text (s : String) : String := ⟨joinWords (splitWsRev s.data [])⟩

/-! ### Date Canonicalizer (`_parse_date`)

`pd.to_datetime(·, errors="coerce")` composed with `strftime("%Y-%m-%d")`
is abstracted as a parameter `p : String → Option String` returning the
ISO rendering on success and `none` on failure (`NaT`). -/

/-- `_parse_date` on one value: normalize, try the library parse, report
the ISO string (blank when missing) and the invalid flag, which is set
exactly when the parse failed but the normalized input was non-blank. -/
def parse_date (p : String → Option String) (raw : String) : String × Bool :=
  let r := clean_text raw
  let parsed := p r
  (parsed.getD "", parsed.isNone && !(r == ""))

/-- Concrete stand-in instance of the abstract date parser, accepting
exactly ten-character all-digit `YYYY-MM-DD` strings; used to instantiate
witnesses. -/
def isoDateParse (s : String) : Option String :=
  match s.data with
  | [y1, y2, y3, y4, '-', m1, m2, '-', d1, d2] =>
    if [y1, y2, y3, y4, m1, m2, d1, d2].all Char.isDigit then some s else none
  | _ => none

/-! ### Amount Canonicalizer (`_parse_amount`) -/

/-- The accounting-negative rewrite of the regex `^\((.*)\)$` to `-\1`:
a value wrapped entirely in parentheses loses them and gains a leading
minus. (The input has already been whitespace-normalized, so `.` matching
everything but a newline is not a restriction.) -/
def parenNeg (s : String) : String :=
  match s.data with
  | [] => s
  | c :: cs =>
    if c == '(' && cs.getLast? == some ')' then ⟨'-' :: cs.dropLast⟩ else s

/-- Removal of every `$` and `,`, as the `[,\$]` cleanup regex does. -/
def stripMoney (s : String) : String :=
  ⟨s.data.filter (fun c => !(c == '$' || c == ','))⟩

/-- Value of a digit run as a natural number. -/
def digitsToNat (l : List Char) : ℕ :=
  l.foldl (fun a c => 10 * a + (c.toNat - 48)) 0

/-- Decimal parse modelling the grammar accepted by `pd.to_numeric`:
`[+-]? digits [. digits]? ([eE] [+-]? digits)?`, at least one mantissa
digit, nothing left over. Returns mantissa and decimal exponent, so the
value is `m·10^e`. -/
def parseDecParts (l : List Char) : Option (ℤ × ℤ) :=
  let sl : ℤ × List Char :=
    match l with
    | '-' :: rest => (-1, rest)
    | '+' :: rest => (1, rest)
    | _ => (1, l)
  let intDigs := sl.2.takeWhile Char.isDigit
  let l2 := sl.2.dropWhile Char.isDigit
  let fl : List Char × List Char :=
    match l2 with
    | '.' :: rest => (rest.takeWhile Char.isDigit, rest.dropWhile Char.isDigit)
    | _ => ([], l2)
  if intDigs.isEmpty && fl.1.isEmpty then none
  else
    let m : ℤ := sl.1 * (digitsToNat (intDigs ++ fl.1) : ℤ)
    let e : ℤ := -(fl.1.length : ℤ)
    match fl.2 with
    | [] => some (m, e)
    | c :: rest =>
      if c == 'e' || c == 'E' then
        let esl : ℤ × List Char :=
          match rest with
          | '-' :: t => (-1, t)
          | '+' :: t => (1, t)
          | _ => (1, rest)
        let eds := esl.2.takeWhile Char.isDigit
        let r2 := esl.2.dropWhile Char.isDigit
        if eds.isEmpty || !r2.isEmpty then none
        else some (m, e + esl.1 * (digitsToNat eds : ℤ))
      else none

/-- Rational value of parsed mantissa/exponent parts. -/
def partsToRat : Option (ℤ × ℤ) → Option ℚ
  | none => none
  | some me => some ((me.1 : ℚ) * (10 : ℚ) ^ me.2)

/-- `_parse_amount` on one value: normalize, rewrite the accounting
negative, strip currency characters, then numeric-parse; the amount is
`none` when blank or unparseable, and the invalid flag is set exactly
when the parse failed on non-blank stripped text (mirroring
`amt.isna() & ~raw_is_blank`). -/
def parse_amount (raw : String) : Option ℚ × Bool :=
  let r := stripMoney (parenNeg (clean_text raw))
  let amt := partsToRat (parseDecParts r.data)
  (amt, amt.isNone && !(r == ""))

/-! ### Identity Key Builder (`_make_txn_key`) -/

/-- Big-endian decimal digits of a natural number, by fuel-based
structural recursion (so that it evaluates inside the kernel). -/
def natStrAux : ℕ → ℕ → List Char
  | 0, _ => []
  | _ + 1, 0 => []
  | fuel + 1, n + 1 => natStrAux fuel ((n + 1) / 10) ++ [Nat.digitChar ((n + 1) % 10)]

/-- Decimal numeral of a natural number. -/
def natStrC (n : ℕ) : List Char := if n = 0 then ['0'] else natStrAux (n + 1) n

/-- Decimal numeral of an integer. -/
def intStrC (i : ℤ) : List Char :=
  if i < 0 then '-' :: natStrC i.natAbs else natStrC i.natAbs

/-- `Series.round(2)` (numpy round-half-to-even) applied to an exact
rational, expressed as an integer number of cents. -/
def round2c (q : ℚ) : ℤ :=
  let m : ℤ := 100 * q.num
  let n : ℤ := Int.fdiv m (q.den : ℤ)
  let r : ℤ := m - n * (q.den : ℤ)
  if 2 * r < (q.den : ℤ) then n
  else if (q.den : ℤ) < 2 * r then n + 1
  else if n % 2 = 0 then n else n + 1

/-- The amount rounded to two decimal places, as a rational. -/
def round2 (q : ℚ) : ℚ := (round2c q : ℚ) / 100

/-- Rendering of the rounded amount column after
`.round(2).astype("Float64").astype(str).fillna("")`: `astype(str)` turns
a missing value into the literal string `"<NA>"` (so the subsequent
`fillna("")` finds nothing missing and changes nothing), and a present
value into its numeral — rendered here as signed cents, an injective and
pipe-free stand-in for the float repr. -/
def amtStr : Option ℤ → String
  | none => "<NA>"
  | some i => ⟨intStrC i⟩

/-- Lowercasing of `.str.lower()`, per character (inputs are ASCII). -/
def lowerStr (s : String) : String := ⟨s.data.map Char.toLower⟩

/-- The lowercase whitespace-normalized description component of the key. -/
def descNorm (s : String) : String := lowerStr (clean_text s)

/-- `_make_txn_key` on one record: ISO date, lowercased normalized
description and rounded amount, joined with `"|"`. -/
def make_txn_key (dateIso desc : String) (amt : Option ℚ) : String :=
  dateIso ++ "|" ++ descNorm desc ++ "|" ++ amtStr (amt.map round2c)

/-! ### Row Classifier and Deduplicator (`transform_transactions`) -/

/-- One row of the combined raw input table. Fields the table does not
have are ignored (see `RawTable` and `defaultRow`). -/
structure RawRow where
  date : String
  description : String
  amount : String
  category : String
  source : String
  sourceFile : String
deriving DecidableEq

/-- The combined raw input table: which columns are present, plus the
rows. `date` and `amount` are required; the others are defaulted when
absent. -/
structure RawTable where
  hasDate : Bool
  hasAmount : Bool
  hasDescription : Bool
  hasCategory : Bool
  hasSource : Bool
  rows : List RawRow
deriving DecidableEq

/-- A normalized record, as built by the transform before splitting. -/
structure NormRow where
  dateIso : String
  description : String
  amount : Option ℚ
  category : String
  source : String
  sourceFile : String
  issueDateInvalid : Bool
  issueAmountInvalid : Bool
  txnKey : String
deriving DecidableEq

/-- `has_issue`: the OR of the two per-field invalid flags. -/
def rowHasIssue (r : NormRow) : Bool := r.issueDateInvalid || r.issueAmountInvalid

/-- Missing optional columns read as empty strings
(`out["description"] = ""` etc. when the column is absent). -/
def defaultRow (t : RawTable) (r : RawRow) : RawRow :=
  { r with
    description := if t.hasDescription then r.description else ""
    category := if t.hasCategory then r.category else ""
    source := if t.hasSource then r.source else "" }

/-- The rows with absent optional columns defaulted. -/
def effRows (t : RawTable) : List RawRow := t.rows.map (defaultRow t)

/-- Normalization of one raw row: clean the text fields, canonicalize
date and amount, record the issue flags, build the identity key. -/
def normalizeRow (p : String → Option String) (r : RawRow) : NormRow :=
  let d := parse_date p r.date
  let a := parse_amount r.amount
  let desc := clean_text r.description
  { dateIso := d.1
    description := desc
    amount := a.1
    category := clean_text r.category
    source := clean_text r.source
    sourceFile := r.sourceFile
    issueDateInvalid := d.2
    issueAmountInvalid := a.2
    txnKey := make_txn_key d.1 desc a.1 }

/-- All normalized rows of a table, in input order. -/
def normRows (p : String → Option String) (t : RawTable) : List NormRow :=
  (effRows t).map (normalizeRow p)

/-- The issue split: rows with `has_issue` set, in order. -/
def issuesOf (p : String → Option String) (t : RawTable) : List NormRow :=
  (normRows p t).filter rowHasIssue

/-- The clean split before deduplication: rows without issues, in order. -/
def cleanBeforeDedup (p : String → Option String) (t : RawTable) : List NormRow :=
  (normRows p t).filter (fun r => !rowHasIssue r)

/-- `drop_duplicates(subset=["txn_key"], keep="first")`: scan in order,
keep a row only if its key has not been seen. -/
def dedupKeyed : List String → List NormRow → List NormRow
  | _, [] => []
  | seen, r :: rs =>
    if r.txnKey ∈ seen then dedupKeyed seen rs
    else r :: dedupKeyed (r.txnKey :: seen) rs

/-- The deduplicated clean rows. -/
def cleanAfterDedup (p : String → Option String) (t : RawTable) : List NormRow :=
  dedupKeyed [] (cleanBeforeDedup p t)

/-- The transform's result: both tables plus the reported metadata
(`rows_in`, `rows_out_clean`, `rows_out_issues`, `duplicates_removed`). -/
structure TransformOut where
  clean : List NormRow
  issues : List NormRow
  rowsIn : ℕ
  rowsOutClean : ℕ
  rowsOutIssues : ℕ
  duplicatesRemoved : ℕ

/-- `transform_transactions`: raise (here: return `Except.error`) when a
required column is missing, otherwise normalize, split and deduplicate. -/
def transform_transactions (p : String → Option String) (t : RawTable) :
    Except String TransformOut :=
  if !t.hasDate then .error "transform_transactions missing required column: date"
  else if !t.hasAmount then .error "transform_transactions missing required column: amount"
  else
    .ok
      { clean := cleanAfterDedup p t
        issues := issuesOf p t
        rowsIn := t.rows.length
        rowsOutClean := (cleanAfterDedup p t).length
        rowsOutIssues := (issuesOf p t).length
        duplicatesRemoved := (cleanBeforeDedup p t).length - (cleanAfterDedup p t).length }

/-! ### Aggregator (`get_query_results`)

The persisted `transactions` table is modelled as a list of rows with the
columns the claimed views read: `date_iso` (TEXT, never NULL — the
transform fills blanks with `""`), `amount_num` (REAL, NULL when the
clean row's amount was blank) and `category` (TEXT, nullable at the SQL
level). -/

/-- One persisted clean row, as the SQL views see it. -/
structure TxnRow where
  dateIso : String
  amount : Option ℚ
  category : Option String
deriving DecidableEq

/-- A persisted clean row built from a transform output row. -/
def toTxnRow (r : NormRow) : TxnRow :=
  { dateIso := r.dateIso, amount := r.amount, category := some r.category }

/-- SQLite `SUBSTR(s, 1, n)` (character based). -/
def strTake (s : String) (n : ℕ) : String := ⟨s.data.take n⟩

/-- SQLite `TRIM` removes leading and trailing spaces (only `' '`). -/
def sqlTrimSpace (s : String) : String :=
  ⟨((s.data.dropWhile (fun c => c == ' ')).reverse.dropWhile (fun c => c == ' ')).reverse⟩

/-- SQLite `SUM` over a nullable column: NULLs are skipped and the sum of
no values is NULL. -/
def sqlSum (l : List (Option ℚ)) : Option ℚ :=
  let vs := l.filterMap id
  if vs.isEmpty then none else some vs.sum

/-- SQLite `ROUND(q, 2)` (round half away from zero), in cents. -/
def sqlRound2c (q : ℚ) : ℤ :=
  if q < 0 then -(Int.fdiv (200 * (-q).num + ((-q).den : ℤ)) (2 * ((-q).den : ℤ)))
  else Int.fdiv (200 * q.num + (q.den : ℤ)) (2 * (q.den : ℤ))

/-- SQLite `ROUND(q, 2)` as a rational. -/
def sqlRound2 (q : ℚ) : ℚ := (sqlRound2c q : ℚ) / 100

/-- `CASE WHEN amount_num > 0 THEN amount_num ELSE 0 END` (NULL compares
as not-true, so NULL amounts contribute 0). -/
def posAmt : Option ℚ → ℚ
  | none => 0
  | some x => if 0 < x then x else 0

/-- `CASE WHEN amount_num < 0 THEN amount_num ELSE 0 END`. -/
def negAmt : Option ℚ → ℚ
  | none => 0
  | some x => if x < 0 then x else 0

/-- Byte-order (here: code-point order) lexicographic comparison, as
SQLite orders TEXT. -/
def lexLeB : List Char → List Char → Bool
  | [], _ => true
  | _ :: _, [] => false
  | a :: as, b :: bs =>
    if a.toNat < b.toNat then true
    else if b.toNat < a.toNat then false
    else lexLeB as bs

/-- One row of the Monthly Trend view. -/
structure MonthlyRow where
  ym : String
  net : Option ℚ
  income : ℚ
  expenses : ℚ
  rowCount : ℕ
deriving DecidableEq

/-- The month key `SUBSTR(date_iso, 1, 7)` of a persisted row. -/
def monthKey (r : TxnRow) : String := strTake r.dateIso 7

/-- The aggregate row of one month group. -/
def monthlyGroup (rows : List TxnRow) (k : String) : MonthlyRow :=
  { ym := k
    net := (sqlSum ((rows.filter (fun r => monthKey r == k)).map (fun r => r.amount))).map sqlRound2
    income := sqlRound2 (((rows.filter (fun r => monthKey r == k)).map (fun r => posAmt r.amount)).sum)
    expenses := sqlRound2 |((rows.filter (fun r => monthKey r == k)).map (fun r => negAmt r.amount)).sum|
    rowCount := (rows.filter (fun r => monthKey r == k)).length }

/-- `ORDER BY year_month` ascending. -/
def ymRel : MonthlyRow → MonthlyRow → Prop := fun a b => lexLeB a.ym.data b.ym.data = true

instance : DecidableRel ymRel := fun a b => inferInstanceAs (Decidable (_ = true))

/-- The Monthly Trend view: `GROUP BY SUBSTR(date_iso, 1, 7)` with
per-group aggregates, ordered ascending by month. -/
def monthly_trends (rows : List TxnRow) : List MonthlyRow :=
  List.insertionSort ymRel (((rows.map monthKey).dedup).map (monthlyGroup rows))

/-- One row of the Category Summary view. -/
structure CategoryRow where
  category : String
  net : Option ℚ
  rowCount : ℕ
deriving DecidableEq

/-- The grouping key
`CASE WHEN category IS NULL OR TRIM(category) = '' THEN 'Uncategorized' ELSE category END`. -/
def bucketCategory : Option String → String
  | none => "Uncategorized"
  | some s => if sqlTrimSpace s == "" then "Uncategorized" else s

/-- The grouping key of a persisted row's category. -/
def catKey (r : TxnRow) : String := bucketCategory r.category

/-- The aggregate row of one category group. -/
def categoryGroup (rows : List TxnRow) (k : String) : CategoryRow :=
  { category := k
    net := (sqlSum ((rows.filter (fun r => catKey r == k)).map (fun r => r.amount))).map sqlRound2
    rowCount := (rows.filter (fun r => catKey r == k)).length }

/-- `ORDER BY ABS(net_total) DESC`: larger absolute net first, SQL NULLs
(smallest in SQLite's DESC order) last. -/
def optAbsGeB (a b : Option ℚ) : Bool :=
  match a, b with
  | _, none => true
  | none, some _ => false
  | some x, some y => decide (|y| ≤ |x|)

/-- The order of the Category Summary view. -/
def catRel : CategoryRow → CategoryRow → Prop := fun a b => optAbsGeB a.net b.net = true

instance : DecidableRel catRel := fun a b => inferInstanceAs (Decidable (_ = true))

instance : IsTotal CategoryRow catRel where
  total a b := by
    unfold catRel optAbsGeB
    rcases a.net with _ | x <;> rcases b.net with _ | y <;> simp
    exact le_total |y| |x|

instance : IsTrans CategoryRow catRel where
  trans a b c hab hbc := by
    revert hab hbc
    unfold catRel optAbsGeB
    rcases a.net with _ | x <;> rcases b.net with _ | y <;> rcases c.net with _ | z <;>
      simp <;> intro hab hbc <;> exact le_trans hbc hab

/-- The Category Summary view: bucket blank/NULL categories as
`"Uncategorized"`, group by the bucketed key, order by descending
absolute net total. -/
def category_summary (rows : List TxnRow) : List CategoryRow :=
  List.insertionSort catRel (((rows.map catKey).dedup).map (categoryGroup rows))

/-! ### Concrete fixtures used by witnesses and counterexamples -/

/-- A clean row; duplicate (up to normalization) of `rowB`. -/
def rowA : RawRow :=
  { date := "2024-01-05", description := "Coffee", amount := "4.50"
    category := "Food", source := "", sourceFile := "a.csv" }

/-- A clean row; duplicate (up to normalization) of `rowA`. -/
def rowB : RawRow :=
  { date := "2024-01-05", description := "coffee", amount := "4.5"
    category := "Food", source := "", sourceFile := "b.csv" }

/-- A two-row table whose rows share one identity key. -/
def tableDup : RawTable :=
  { hasDate := true, hasAmount := true, hasDescription := true
    hasCategory := true, hasSource := true, rows := [rowA, rowB] }

/-- The transform output on `tableDup` (definitionally the `.ok` payload). -/
def outDup : TransformOut :=
  { clean := cleanAfterDedup isoDateParse tableDup
    issues := issuesOf isoDateParse tableDup
    rowsIn := tableDup.rows.length
    rowsOutClean := (cleanAfterDedup isoDateParse tableDup).length
    rowsOutIssues := (issuesOf isoDateParse tableDup).length
    duplicatesRemoved :=
      (cleanBeforeDedup isoDateParse tableDup).length -
        (cleanAfterDedup isoDateParse tableDup).length }

/-- A table lacking the required `date` column. -/
def tNoDate : RawTable :=
  { hasDate := false, hasAmount := true, hasDescription := true
    hasCategory := true, hasSource := true, rows := [] }

/-- A row whose date is whitespace-only and whose amount is blank. -/
def rowBlankDate : RawRow :=
  { date := " ", description := "d", amount := ""
    category := "", source := "", sourceFile := "" }

/-- A one-row table carrying `rowBlankDate`. -/
def tBlankDate : RawTable :=
  { hasDate := true, hasAmount := true, hasDescription := true
    hasCategory := true, hasSource := true, rows := [rowBlankDate] }

/-- One persisted row with a normal date. -/
def rowsMonthly : List TxnRow :=
  [{ dateIso := "2024-01-05", amount := none, category := none }]

/-- One persisted row with an empty `date_iso`. -/
def rowEmptyDate : TxnRow := { dateIso := "", amount := none, category := none }

/-- One persisted row with a blank category. -/
def rowsCat : List TxnRow :=
  [{ dateIso := "2024-01-05", amount := none, category := some "" }]

/-- Two persisted rows: a genuine `"Uncategorized"` category next to a
blank one. -/
def rowsCatCx : List TxnRow :=
  [{ dateIso := "2024-01-05", amount := none, category := some "Uncategorized" },
   { dateIso := "2024-01-06", amount := none, category := some "" }]

/-! ### Helper lemmas: the Text Normalizer -/

theorem splitWsRev_eq_nil_iff :
    ∀ (l : List Char) (cur : List Char),
      splitWsRev l cur = [] ↔ l.all isPySpace = true ∧ cur = [] := by
  intro l
  induction l with
  | nil =>
    intro cur
    by_cases h : cur = [] <;> simp [splitWsRev, h]
  | cons c cs ih =>
    intro cur
    by_cases hc : isPySpace c
    · by_cases hcur : cur = []
      · simp [splitWsRev, hc, hcur, ih]
      · simp [splitWsRev, hc, hcur]
    · simp [splitWsRev, hc, ih]

theorem splitWsRev_mem_ne_nil :
    ∀ (l : List Char) (cur : List Char) (w : List Char),
      w ∈ splitWsRev l cur → w ≠ [] := by
  intro l
  induction l with
  | nil =>
    intro cur w hw
    by_cases h : cur = []
    · simp [splitWsRev, h] at hw
    · simp [splitWsRev, h] at hw
      subst hw
      simpa using h
  | cons c cs ih =>
    intro cur w hw
    by_cases hc : isPySpace c
    · by_cases hcur : cur = []
      · simp only [splitWsRev, hc, if_pos hcur, if_true] at hw
        exact ih [] w hw
      · simp only [splitWsRev, hc, if_neg hcur, if_true] at hw
        rcases List.mem_cons.mp hw with h | h
        · subst h
          simpa using hcur
        · exact ih [] w h
    · simp only [splitWsRev, hc, if_false, Bool.false_eq_true] at hw
      exact ih (c :: cur) w hw

theorem joinWords_eq_nil_iff (ws : List (List Char))
    (hne : ∀ w ∈ ws, w ≠ []) : joinWords ws = [] ↔ ws = [] := by
  match ws with
  | [] => simp [joinWords]
  | [w] =>
    have hw := hne w (by simp)
    simp [joinWords, hw]
  | w :: v :: ws =>
    have hw := hne w (by simp)
    simp [joinWords, hw]

theorem clean_text_eq_empty_iff (s : String) :
    clean_text s = "" ↔ s.data.all isPySpace = true := by
  have hmk : ∀ l : List Char, (⟨l⟩ : String) = "" ↔ l = [] := by
    intro l
    constructor
    · intro h
      exact congrArg String.data h
    · intro h
      rw [h]
  unfold clean_text
  rw [hmk]
  rw [joinWords_eq_nil_iff _ (fun w hw => splitWsRev_mem_ne_nil s.data [] w hw)]
  rw [splitWsRev_eq_nil_iff]
  simp

/-- Unfolding form of `parse_date`. -/
theorem parse_date_eq (p : String → Option String) (raw : String) :
    parse_date p raw =
      ((p (clean_text raw)).getD "",
        (p (clean_text raw)).isNone && !(clean_text raw == "")) := rfl

/-- Unfolding form of `parse_amount`. -/
theorem parse_amount_eq (raw : String) :
    parse_amount raw =
      (partsToRat (parseDecParts (stripMoney (parenNeg (clean_text raw))).data),
        (partsToRat (parseDecParts (stripMoney (parenNeg (clean_text raw))).data)).isNone
          && !(stripMoney (parenNeg (clean_text raw)) == "")) := rfl

/-! ### Helper lemmas: the Identity Key Builder -/

theorem noPipeMid :
    ∀ (xs ys r₁ r₂ : List Char), '|' ∉ xs → '|' ∉ ys →
      xs ++ '|' :: r₁ = ys ++ '|' :: r₂ → xs = ys ∧ r₁ = r₂ := by
  intro xs
  induction xs with
  | nil =>
    intro ys r₁ r₂ hxs hys h
    cases ys with
    | nil => simpa using h
    | cons y ys =>
      injection h with h1 h2
      subst h1
      exact absurd (List.mem_cons_self _ _) hys
  | cons x xs ih =>
    intro ys r₁ r₂ hxs hys h
    cases ys with
    | nil =>
      injection h with h1 h2
      subst h1
      exact absurd (List.mem_cons_self _ _) hxs
    | cons y ys =>
      injection h with h1 h2
      subst h1
      have hr := ih ys r₁ r₂ (fun hm => hxs (List.mem_cons_of_mem _ hm))
        (fun hm => hys (List.mem_cons_of_mem _ hm)) h2
      exact ⟨by rw [hr.1], hr.2⟩

theorem digitChar_inj10 :
    ∀ a < 10, ∀ b < 10, Nat.digitChar a = Nat.digitChar b → a = b := by decide

theorem digitChar_ne_special :
    ∀ d < 10, Nat.digitChar d ≠ '|' ∧ Nat.digitChar d ≠ '-' ∧ Nat.digitChar d ≠ '<' := by
  decide

theorem natStrAux_eq_digits :
    ∀ (fuel n : ℕ), n ≤ fuel →
      natStrAux fuel n = ((Nat.digits 10 n).map Nat.digitChar).reverse := by
  intro fuel
  induction fuel with
  | zero =>
    intro n hn
    rw [Nat.le_zero] at hn
    subst hn
    simp [natStrAux]
  | succ fuel ih =>
    intro n hn
    cases n with
    | zero => simp [natStrAux]
    | succ m =>
      have hdiv : (m + 1) / 10 < m + 1 := Nat.div_lt_self (Nat.succ_pos m) (by norm_num)
      simp only [natStrAux]
      rw [ih ((m + 1) / 10) (by omega)]
      rw [Nat.digits_def' (by norm_num : (1 : ℕ) < 10) (Nat.succ_pos m)]
      simp [List.reverse_cons]

theorem natStrC_mem (n : ℕ) (c : Char) (hc : c ∈ natStrC n) :
    ∃ d, d < 10 ∧ c = Nat.digitChar d := by
  unfold natStrC at hc
  by_cases h : n = 0
  · rw [if_pos h] at hc
    simp at hc
    exact ⟨0, by norm_num, by rw [hc]; decide⟩
  · rw [if_neg h, natStrAux_eq_digits _ _ (Nat.le_succ n)] at hc
    simp only [List.mem_reverse, List.mem_map] at hc
    rcases hc with ⟨d, hd, hcd⟩
    exact ⟨d, Nat.digits_lt_base (by norm_num) hd, hcd.symm⟩

theorem mapDigitChar_inj :
    ∀ (l₁ l₂ : List ℕ), (∀ x ∈ l₁, x < 10) → (∀ x ∈ l₂, x < 10) →
      l₁.map Nat.digitChar = l₂.map Nat.digitChar → l₁ = l₂ := by
  intro l₁
  induction l₁ with
  | nil =>
    intro l₂ _ _ h
    cases l₂ with
    | nil => rfl
    | cons b bs => simp at h
  | cons a as ih =>
    intro l₂ h₁ h₂ h
    cases l₂ with
    | nil => simp at h
    | cons b bs =>
      simp only [List.map_cons, List.cons.injEq] at h
      have hab : a = b := digitChar_inj10 a (h₁ a (by simp)) b (h₂ b (by simp)) h.1
      rw [hab, ih bs (fun x hx => h₁ x (by simp [hx])) (fun x hx => h₂ x (by simp [hx])) h.2]

theorem natStrC_eq_zero_str (n : ℕ) (h : natStrC n = ['0']) : n = 0 := by
  by_cases hn : n = 0
  · exact hn
  · exfalso
    unfold natStrC at h
    rw [if_neg hn, natStrAux_eq_digits _ _ (Nat.le_succ n)] at h
    have h' : (Nat.digits 10 n).map Nat.digitChar = ['0'] := by
      have := congrArg List.reverse h
      simpa using this
    have hd : Nat.digits 10 n = [0] :=
      mapDigitChar_inj _ _ (fun x hx => Nat.digits_lt_base (by norm_num) hx)
        (by intro x hx; simp at hx; omega) (by rw [h']; rfl)
    have hofd := congrArg (Nat.ofDigits 10) hd
    rw [Nat.ofDigits_digits] at hofd
    simp [Nat.ofDigits] at hofd
    exact hn hofd

theorem natStrC_inj (m n : ℕ) (h : natStrC m = natStrC n) : m = n := by
  by_cases hm : m = 0 <;> by_cases hn : n = 0
  · omega
  · have := natStrC_eq_zero_str n (by rw [← h]; simp [natStrC, hm])
    omega
  · have := natStrC_eq_zero_str m (by rw [h]; simp [natStrC, hn])
    omega
  · unfold natStrC at h
    rw [if_neg hm, if_neg hn, natStrAux_eq_digits _ _ (Nat.le_succ m),
      natStrAux_eq_digits _ _ (Nat.le_succ n)] at h
    have h' := congrArg List.reverse h
    simp only [List.reverse_reverse] at h'
    have hd := mapDigitChar_inj _ _ (fun x hx => Nat.digits_lt_base (by norm_num) hx)
      (fun x hx => Nat.digits_lt_base (by norm_num) hx) h'
    have hofd := congrArg (Nat.ofDigits 10) hd
    rwa [Nat.ofDigits_digits, Nat.ofDigits_digits] at hofd

theorem intStrC_mem (i : ℤ) (c : Char) (hc : c ∈ intStrC i) :
    c = '-' ∨ ∃ d, d < 10 ∧ c = Nat.digitChar d := by
  unfold intStrC at hc
  by_cases h : i < 0
  · rw [if_pos h] at hc
    rcases List.mem_cons.mp hc with h1 | h1
    · exact Or.inl h1
    · exact Or.inr (natStrC_mem _ _ h1)
  · rw [if_neg h] at hc
    exact Or.inr (natStrC_mem _ _ hc)

theorem dash_not_mem_natStrC (n : ℕ) : '-' ∉ natStrC n := by
  intro hm
  rcases natStrC_mem n '-' hm with ⟨d, hd, hcd⟩
  exact (digitChar_ne_special d hd).2.1 hcd.symm

theorem intStrC_inj (i j : ℤ) (h : intStrC i = intStrC j) : i = j := by
  by_cases hi : i < 0 <;> by_cases hj : j < 0
  · unfold intStrC at h
    rw [if_pos hi, if_pos hj] at h
    injection h with _ h2
    have := natStrC_inj _ _ h2
    omega
  · exfalso
    unfold intStrC at h
    rw [if_pos hi, if_neg hj] at h
    exact absurd (h ▸ List.mem_cons_self '-' _) (dash_not_mem_natStrC j.natAbs)
  · exfalso
    unfold intStrC at h
    rw [if_neg hi, if_pos hj] at h
    exact absurd (h.symm ▸ List.mem_cons_self '-' _) (dash_not_mem_natStrC i.natAbs)
  · unfold intStrC at h
    rw [if_neg hi, if_neg hj] at h
    have := natStrC_inj _ _ h
    omega

theorem amtStr_inj (a b : Option ℤ) (h : amtStr a = amtStr b) : a = b := by
  match a, b with
  | none, none => rfl
  | some i, some j =>
    have hd : intStrC i = intStrC j := congrArg String.data h
    rw [intStrC_inj i j hd]
  | none, some j =>
    exfalso
    have hm : '<' ∈ intStrC j := by
      have hmem : '<' ∈ (amtStr (some j)).data := by rw [← h]; decide
      exact hmem
    rcases intStrC_mem j '<' hm with h1 | ⟨d, hd, hcd⟩
    · exact absurd h1 (by decide)
    · exact (digitChar_ne_special d hd).2.2 hcd.symm
  | some i, none =>
    exfalso
    have hm : '<' ∈ intStrC i := by
      have hmem : '<' ∈ (amtStr (some i)).data := by rw [h]; decide
      exact hmem
    rcases intStrC_mem i '<' hm with h1 | ⟨d, hd, hcd⟩
    · exact absurd h1 (by decide)
    · exact (digitChar_ne_special d hd).2.2 hcd.symm

theorem amtStr_no_pipe (a : Option ℤ) : '|' ∉ (amtStr a).data := by
  match a with
  | none => decide
  | some i =>
    intro hm
    rcases intStrC_mem i '|' hm with h1 | ⟨d, hd, hcd⟩
    · exact absurd h1 (by decide)
    · exact (digitChar_ne_special d hd).1 hcd.symm

theorem round2_eq_iff (x y : ℚ) : round2 x = round2 y ↔ round2c x = round2c y := by
  unfold round2
  constructor
  · intro h
    have h' : (round2c x : ℚ) = (round2c y : ℚ) := by
      field_simp at h
      exact_mod_cast h
    exact_mod_cast h'
  · intro h
    rw [h]

theorem make_txn_key_data (d e : String) (a : Option ℚ) :
    (make_txn_key d e a).data =
      d.data ++ '|' :: ((descNorm e).data ++ '|' :: (amtStr (a.map round2c)).data) := by
  unfold make_txn_key
  have hp : ("|" : String).data = ['|'] := rfl
  simp [String.data_append, hp]

theorem key_components_eq (d₁ e₁ d₂ e₂ : String) (a₁ a₂ : Option ℚ)
    (h₁ : '|' ∉ d₁.data) (h₂ : '|' ∉ d₂.data)
    (h : make_txn_key d₁ e₁ a₁ = make_txn_key d₂ e₂ a₂) :
    d₁ = d₂ ∧ descNorm e₁ = descNorm e₂ ∧ a₁.map round2c = a₂.map round2c := by
  have hd := congrArg String.data h
  rw [make_txn_key_data, make_txn_key_data] at hd
  have step1 := noPipeMid _ _ _ _ h₁ h₂ hd
  have hd1 : d₁ = d₂ := String.ext step1.1
  have hrev := congrArg List.reverse step1.2
  simp only [List.reverse_append, List.reverse_cons, List.append_assoc,
    List.singleton_append, List.nil_append] at hrev
  have step2 := noPipeMid _ _ _ _
    (fun hm => amtStr_no_pipe (a₁.map round2c) (List.mem_reverse.mp hm))
    (fun hm => amtStr_no_pipe (a₂.map round2c) (List.mem_reverse.mp hm)) hrev
  have hamt : (amtStr (a₁.map round2c)).data = (amtStr (a₂.map round2c)).data := by
    have := congrArg List.reverse step2.1
    simpa using this
  have hdesc : (descNorm e₁).data = (descNorm e₂).data := by
    have := congrArg List.reverse step2.2
    simpa using this
  exact ⟨hd1, String.ext hdesc, amtStr_inj _ _ (String.ext hamt)⟩

/-! ### Helper lemmas: classifier, deduplicator and views -/

theorem length_filter_add_length_filter_not {α : Type} (l : List α) (f : α → Bool) :
    (l.filter f).length + (l.filter (fun x => !f x)).length = l.length := by
  induction l with
  | nil => rfl
  | cons a as ih =>
    cases h : f a <;> simp [List.filter_cons, h] <;> omega

theorem dedupKeyed_sublist : ∀ (seen : List String) (l : List NormRow),
    (dedupKeyed seen l).Sublist l := by
  intro seen l
  induction l generalizing seen with
  | nil => simp [dedupKeyed]
  | cons r rs ih =>
    by_cases h : r.txnKey ∈ seen
    · simp only [dedupKeyed, if_pos h]
      exact (ih seen).cons r
    · simp only [dedupKeyed, if_neg h]
      exact (ih _).cons₂ r

theorem dedupKeyed_filter :
    ∀ (l : List NormRow) (seen : List String) (k : String),
      (dedupKeyed seen l).filter (fun r => r.txnKey == k) =
        if k ∈ seen then [] else (l.filter (fun r => r.txnKey == k)).take 1 := by
  intro l
  induction l with
  | nil =>
    intro seen k
    by_cases h : k ∈ seen <;> simp [dedupKeyed, h]
  | cons r rs ih =>
    intro seen k
    by_cases hr : r.txnKey ∈ seen
    · simp only [dedupKeyed, if_pos hr]
      rw [ih seen k]
      by_cases hk : k ∈ seen
      · simp [hk]
      · have hne : ¬(r.txnKey == k) = true := by
          simp only [beq_iff_eq]
          intro hkeq
          exact hk (hkeq ▸ hr)
        rw [if_neg hk, if_neg hk, List.filter_cons, if_neg hne]
    · simp only [dedupKeyed, if_neg hr]
      by_cases hrk : (r.txnKey == k) = true
      · have hkeq : r.txnKey = k := beq_iff_eq.mp hrk
        rw [List.filter_cons, if_pos hrk, ih (r.txnKey :: seen) k]
        have hk_in : k ∈ r.txnKey :: seen := by
          rw [← hkeq]
          exact List.mem_cons_self _ _
        have hk_not : k ∉ seen := fun hks => hr (hkeq ▸ hks)
        rw [if_pos hk_in, if_neg hk_not, List.filter_cons, if_pos hrk]
        simp
      · rw [List.filter_cons, if_neg hrk, ih (r.txnKey :: seen) k]
        have hiff : k ∈ r.txnKey :: seen ↔ k ∈ seen := by
          constructor
          · intro hm
            rcases List.mem_cons.mp hm with he | hm'
            · exact absurd (by rw [he]; simp : (r.txnKey == k) = true) hrk
            · exact hm'
          · exact fun hm => List.mem_cons_of_mem _ hm
        by_cases hk : k ∈ seen
        · rw [if_pos (hiff.mpr hk), if_pos hk]
        · rw [if_neg (fun hm => hk (hiff.mp hm)), if_neg hk,
            List.filter_cons, if_neg hrk]

theorem nodup_filter_eq_singleton :
    ∀ (l : List String) (k : String), l.Nodup → k ∈ l →
      l.filter (fun x => x == k) = [k] := by
  intro l
  induction l with
  | nil =>
    intro k _ hk
    cases hk
  | cons a as ih =>
    intro k hnd hk
    rcases List.mem_cons.mp hk with he | hm
    · subst he
      rw [List.filter_cons, if_pos (by simp)]
      have hnm : k ∉ as := (List.nodup_cons.mp hnd).1
      have hnil : as.filter (fun x => x == k) = [] := by
        rw [List.filter_eq_nil_iff]
        intro x hx
        simp only [beq_iff_eq]
        intro hxk
        exact hnm (hxk ▸ hx)
      rw [hnil]
    · have hne : ¬(a == k) = true := by
        simp only [beq_iff_eq]
        intro hak
        exact (List.nodup_cons.mp hnd).1 (hak ▸ hm)
      rw [List.filter_cons, if_neg hne]
      exact ih k (List.nodup_cons.mp hnd).2 hm

theorem grouped_filter_eq {β : Type} (keys : List String) (build : String → β)
    (proj : β → String) (hproj : ∀ k, proj (build k) = k) (k : String)
    (hnd : keys.Nodup) (hk : k ∈ keys) :
    (keys.map build).filter (fun g => proj g == k) = [build k] := by
  have h1 : (keys.map build).filter (fun g => proj g == k) =
      (keys.filter (fun x => proj (build x) == k)).map build :=
    List.filter_map build keys
  have h2 : keys.filter (fun x => proj (build x) == k) =
      keys.filter (fun x => x == k) := by
    apply List.filter_congr
    intro x hx
    rw [hproj x]
  rw [h1, h2, nodup_filter_eq_singleton keys k hnd hk]
  simp

theorem count_map_key (rows : List TxnRow) (keyOf : TxnRow → String) (k : String) :
    (rows.map keyOf).count k = (rows.filter (fun r => keyOf r == k)).length := by
  rw [List.count_eq_countP, List.countP_map, ← List.countP_eq_length_filter]
  rfl

theorem grouped_counts_sum (rows : List TxnRow) (keyOf : TxnRow → String) :
    (((rows.map keyOf).dedup).map
        (fun k => (rows.filter (fun r => keyOf r == k)).length)).sum = rows.length := by
  have hmain := List.sum_map_count_dedup_eq_length (rows.map keyOf)
  rw [← List.length_map rows keyOf, ← hmain]
  apply congrArg List.sum
  apply List.map_congr_left
  intro k hk
  exact (count_map_key rows keyOf k).symm

/-! ### Claim theorems -/

/-- Claim C7: the Date Canonicalizer returns `("", false)` for every
empty or whitespace-only input string, and `("", true)` for every
non-empty input string that fails to parse as a date; blank input is
never flagged as an error. (Stated for every library parser `p` that,
like `pd.to_datetime`, rejects the empty string.) -/
theorem date_canonicalizer_spec (p : String → Option String) (hp : p "" = none) :
    (∀ s : String, s.data.all isPySpace = true → parse_date p s = ("", false)) ∧
    (∀ s : String, ¬ s.data.all isPySpace = true → p (clean_text s) = none →
      parse_date p s = ("", true)) := by
  constructor
  · intro s hs
    have hc : clean_text s = "" := (clean_text_eq_empty_iff s).mpr hs
    rw [parse_date_eq, hc, hp]
    simp
  · intro s hs hparse
    have hc : clean_text s ≠ "" := fun h => hs ((clean_text_eq_empty_iff s).mp h)
    rw [parse_date_eq, hparse]
    simp [hc]

/-- Witness for C7: a whitespace-only date and an unparseable one, under
the concrete `isoDateParse` library stand-in. -/
theorem date_canonicalizer_spec_witness :
    parse_date isoDateParse "  " = ("", false) ∧
    parse_date isoDateParse "not a date" = ("", true) :=
  ⟨(date_canonicalizer_spec isoDateParse rfl).1 "  " (by decide),
   (date_canonicalizer_spec isoDateParse rfl).2 "not a date" (by decide) (by decide)⟩

/-- Claim C6: the Amount Canonicalizer first rewrites fully-parenthesized
text to a minus-prefixed value, then strips `$` and `,`; an empty
stripped result yields `(undefined, false)`; the invalid flag is set
exactly for non-empty unparseable stripped text; and concretely
`"(45.10)" ↦ -45.10`, `"$1,234.56" ↦ 1234.56`, `"-10" ↦ -10`. -/
theorem amount_canonicalizer_spec :
    parse_amount "(45.10)" = (some (-45.10), false) ∧
    parse_amount "$1,234.56" = (some 1234.56, false) ∧
    parse_amount "-10" = (some (-10), false) ∧
    (∀ s : String, stripMoney (parenNeg (clean_text s)) = "" →
      parse_amount s = (none, false)) ∧
    (∀ s : String,
      (parse_amount s).2 = true ↔
        stripMoney (parenNeg (clean_text s)) ≠ "" ∧
          parseDecParts (stripMoney (parenNeg (clean_text s))).data = none) := by
  refine ⟨?_, ?_, ?_, ?_, ?_⟩
  · have h1 : parseDecParts (stripMoney (parenNeg (clean_text "(45.10)"))).data =
        some (-4510, -2) := by decide
    have h2 : (stripMoney (parenNeg (clean_text "(45.10)")) == "") = false := by decide
    rw [parse_amount_eq, h1, h2]
    simp only [partsToRat, Option.isNone_some, Bool.false_and, Prod.mk.injEq,
      Option.some.injEq, and_true]
    norm_num
  · have h1 : parseDecParts (stripMoney (parenNeg (clean_text "$1,234.56"))).data =
        some (123456, -2) := by decide
    have h2 : (stripMoney (parenNeg (clean_text "$1,234.56")) == "") = false := by decide
    rw [parse_amount_eq, h1, h2]
    simp only [partsToRat, Option.isNone_some, Bool.false_and, Prod.mk.injEq,
      Option.some.injEq, and_true]
    norm_num
  · have h1 : parseDecParts (stripMoney (parenNeg (clean_text "-10"))).data =
        some (-10, 0) := by decide
    have h2 : (stripMoney (parenNeg (clean_text "-10")) == "") = false := by decide
    rw [parse_amount_eq, h1, h2]
    simp only [partsToRat, Option.isNone_some, Bool.false_and, Prod.mk.injEq,
      Option.some.injEq, and_true]
    norm_num
  · intro s h
    rw [parse_amount_eq, h]
    have hnil : parseDecParts ("" : String).data = none := by decide
    rw [hnil]
    simp [partsToRat]
  · intro s
    rw [parse_amount_eq]
    cases hcase : parseDecParts (stripMoney (parenNeg (clean_text s))).data with
    | none => simp [partsToRat, hcase]
    | some v => simp [partsToRat, hcase]

/-- Witness for C6: a non-blank input whose stripped text is empty is not
flagged, and an unparseable non-blank input is flagged. -/
theorem amount_canonicalizer_spec_witness :
    parse_amount "$," = (none, false) ∧ (parse_amount "abc").2 = true :=
  ⟨amount_canonicalizer_spec.2.2.2.1 "$," (by decide),
   (amount_canonicalizer_spec.2.2.2.2 "abc").mpr ⟨by decide, by decide⟩⟩

/-- Equality of amounts rounded to two decimals is equality in cents. -/
theorem map_round2_iff (a₁ a₂ : Option ℚ) :
    a₁.map round2 = a₂.map round2 ↔ a₁.map round2c = a₂.map round2c := by
  match a₁, a₂ with
  | none, none => simp
  | none, some y => simp
  | some x, none => simp
  | some x, some y => simp [round2_eq_iff]

/-- Claim C1 (amended): when both `date_iso` components are pipe-free —
as every value produced by the Date Canonicalizer is — two identity keys
are equal iff the records have the same `date_iso`, the same lowercase
whitespace-normalized description and the same amount rounded to two
decimal places. Over arbitrary strings the converse fails (see the
counterexample). -/
theorem txn_key_eq_iff (d₁ e₁ d₂ e₂ : String) (a₁ a₂ : Option ℚ)
    (h₁ : '|' ∉ d₁.data) (h₂ : '|' ∉ d₂.data) :
    make_txn_key d₁ e₁ a₁ = make_txn_key d₂ e₂ a₂ ↔
      d₁ = d₂ ∧ descNorm e₁ = descNorm e₂ ∧ a₁.map round2 = a₂.map round2 := by
  constructor
  · intro h
    obtain ⟨hd, hdesc, hamt⟩ := key_components_eq d₁ e₁ d₂ e₂ a₁ a₂ h₁ h₂ h
    exact ⟨hd, hdesc, (map_round2_iff a₁ a₂).mpr hamt⟩
  · intro h
    obtain ⟨hd, hdesc, hamt⟩ := h
    unfold make_txn_key
    rw [hd, hdesc, (map_round2_iff a₁ a₂).mp hamt]

/-- Claim C1 counterexample: with a `date_iso` containing `'|'` the keys
of two records that differ in `date_iso` (and in description) coincide,
so the claimed equivalence does not hold for all input strings. -/
theorem txn_key_counterexample :
    make_txn_key "a|b" "c" none = make_txn_key "a" "b|c" none ∧
      ("a|b" : String) ≠ "a" := ⟨by decide, by decide⟩

/-- Witness for C1 at pipe-free dates: normalization-equal descriptions
give equal keys. -/
theorem txn_key_eq_iff_witness :
    make_txn_key "2024-01-02" "A b" (some 1) = make_txn_key "2024-01-02" "a  B" (some 1) :=
  (txn_key_eq_iff "2024-01-02" "A b" "2024-01-02" "a  B" (some 1) (some 1)
    (by decide) (by decide)).mpr ⟨rfl, by decide, rfl⟩

/-- Claim C2 (code bug): for an undefined amount the key's amount
component is the string `"<NA>"` produced by `astype(str)`, not the
empty string the dead `fillna("")` was meant to leave; evaluated at
`date_iso = "2024-01-02"`, description `"x"`, blank amount. -/
theorem txn_key_undefined_amount_eval :
    make_txn_key "2024-01-02" "x" none = "2024-01-02|x|<NA>" ∧
      ("2024-01-02|x|<NA>" : String) ≠ "2024-01-02|x|" := ⟨by decide, by decide⟩

/-- Claim C4: on every accepted input table the reported counts satisfy
`issue_rows + clean_rows_before_dedup = input_rows` and
`clean_rows_before_dedup - duplicates_removed = clean_rows` (each input
row lands in exactly one of the issue set and the pre-dedup clean set). -/
theorem transform_count_identities (p : String → Option String) (t : RawTable)
    (out : TransformOut) (h : transform_transactions p t = .ok out) :
    out.rowsOutIssues + (cleanBeforeDedup p t).length = out.rowsIn ∧
    (cleanBeforeDedup p t).length - out.duplicatesRemoved = out.rowsOutClean := by
  unfold transform_transactions at h
  cases hd : t.hasDate with
  | false =>
    rw [hd] at h
    simp at h
  | true =>
    rw [hd] at h
    cases ha : t.hasAmount with
    | false =>
      rw [ha] at h
      simp at h
    | true =>
      rw [ha] at h
      simp only [Bool.not_true, Bool.false_eq_true, if_false, Except.ok.injEq] at h
      subst h
      constructor
      · show (issuesOf p t).length + (cleanBeforeDedup p t).length = t.rows.length
        unfold issuesOf cleanBeforeDedup
        rw [length_filter_add_length_filter_not (normRows p t) rowHasIssue]
        unfold normRows effRows
        simp
      · show (cleanBeforeDedup p t).length -
            ((cleanBeforeDedup p t).length - (cleanAfterDedup p t).length) =
            (cleanAfterDedup p t).length
        have hle : (cleanAfterDedup p t).length ≤ (cleanBeforeDedup p t).length :=
          (dedupKeyed_sublist [] _).length_le
        omega

/-- Witness for C4 at the concrete duplicate-bearing table. -/
theorem transform_count_identities_witness :
    outDup.rowsOutIssues + (cleanBeforeDedup isoDateParse tableDup).length = outDup.rowsIn ∧
    (cleanBeforeDedup isoDateParse tableDup).length - outDup.duplicatesRemoved =
      outDup.rowsOutClean :=
  transform_count_identities isoDateParse tableDup outDup rfl

/-- Claim C5: deduplication keeps, for every key, exactly the first clean
occurrence in original order (the surviving clean rows are a sublist of
the pre-dedup clean rows and the per-key filter is the one-element take),
and `duplicates_removed = clean_rows_before_dedup - clean_rows_after`. -/
theorem dedup_keeps_first (p : String → Option String) (t : RawTable)
    (out : TransformOut) (h : transform_transactions p t = .ok out) :
    out.clean.Sublist (cleanBeforeDedup p t) ∧
    (∀ k : String, out.clean.filter (fun r => r.txnKey == k) =
      ((cleanBeforeDedup p t).filter (fun r => r.txnKey == k)).take 1) ∧
    out.duplicatesRemoved = (cleanBeforeDedup p t).length - out.rowsOutClean := by
  unfold transform_transactions at h
  cases hd : t.hasDate with
  | false =>
    rw [hd] at h
    simp at h
  | true =>
    rw [hd] at h
    cases ha : t.hasAmount with
    | false =>
      rw [ha] at h
      simp at h
    | true =>
      rw [ha] at h
      simp only [Bool.not_true, Bool.false_eq_true, if_false, Except.ok.injEq] at h
      subst h
      refine ⟨dedupKeyed_sublist [] _, ?_, rfl⟩
      intro k
      show (dedupKeyed [] (cleanBeforeDedup p t)).filter (fun r => r.txnKey == k) = _
      rw [dedupKeyed_filter (cleanBeforeDedup p t) [] k]
      simp

/-- Witness for C5 at the concrete duplicate-bearing table and the key
its two rows share. -/
theorem dedup_keeps_first_witness :
    outDup.clean.filter (fun r => r.txnKey == "2024-01-05|coffee|450") =
      ((cleanBeforeDedup isoDateParse tableDup).filter
        (fun r => r.txnKey == "2024-01-05|coffee|450")).take 1 :=
  (dedup_keeps_first isoDateParse tableDup outDup rfl).2.1 "2024-01-05|coffee|450"

/-- Claim C9: the transform fails (a typed error, not a normal return)
exactly when the `date` or `amount` column is missing; with both present
it returns normally, and absent optional columns are read as empty. -/
theorem transform_missing_columns (p : String → Option String) (t : RawTable) :
    (t.hasDate = false ∨ t.hasAmount = false →
      ∃ msg, transform_transactions p t = .error msg) ∧
    (t.hasDate = true → t.hasAmount = true →
      ∃ out, transform_transactions p t = .ok out) ∧
    (t.hasDescription = false → ∀ r ∈ effRows t, r.description = "") ∧
    (t.hasCategory = false → ∀ r ∈ effRows t, r.category = "") ∧
    (t.hasSource = false → ∀ r ∈ effRows t, r.source = "") := by
  refine ⟨?_, ?_, ?_, ?_, ?_⟩
  · intro hmiss
    rcases hmiss with hd | ha
    · exact ⟨"transform_transactions missing required column: date",
        by simp [transform_transactions, hd]⟩
    · cases hd : t.hasDate with
      | false =>
        exact ⟨"transform_transactions missing required column: date",
          by simp [transform_transactions, hd]⟩
      | true =>
        exact ⟨"transform_transactions missing required column: amount",
          by simp [transform_transactions, hd, ha]⟩
  · intro hd ha
    refine ⟨{ clean := cleanAfterDedup p t, issues := issuesOf p t
              rowsIn := t.rows.length, rowsOutClean := (cleanAfterDedup p t).length
              rowsOutIssues := (issuesOf p t).length
              duplicatesRemoved :=
                (cleanBeforeDedup p t).length - (cleanAfterDedup p t).length }, ?_⟩
    simp [transform_transactions, hd, ha]
  · intro hflag r hr
    rcases List.mem_map.mp hr with ⟨r₀, _, rfl⟩
    simp [defaultRow, hflag]
  · intro hflag r hr
    rcases List.mem_map.mp hr with ⟨r₀, _, rfl⟩
    simp [defaultRow, hflag]
  · intro hflag r hr
    rcases List.mem_map.mp hr with ⟨r₀, _, rfl⟩
    simp [defaultRow, hflag]

/-- Witness for C9 at a table lacking the `date` column. -/
theorem transform_missing_columns_witness :
    ∃ msg, transform_transactions isoDateParse tNoDate = .error msg :=
  (transform_missing_columns isoDateParse tNoDate).1 (Or.inl rfl)

/-- Claim C10: a row with empty or whitespace-only date whose amount is
not flagged invalid (it parses or is blank) is classified into the clean
set with empty `date_iso`; concretely, the transform of a one-row table
with blank date and blank amount returns a clean set containing a row
with empty `date_iso` — so the persisted clean set can contain such
rows. (Stated for every library parser `p` rejecting the empty string.) -/
theorem blank_date_rows_clean (p : String → Option String) (hp : p "" = none)
    (t : RawTable) (r : RawRow) (hr : r ∈ t.rows)
    (hd : r.date.data.all isPySpace = true)
    (ha : (parse_amount r.amount).2 = false) :
    normalizeRow p (defaultRow t r) ∈ cleanBeforeDedup p t ∧
    (normalizeRow p (defaultRow t r)).dateIso = "" ∧
    ∃ out, transform_transactions p tBlankDate = .ok out ∧
      ∃ q ∈ out.clean, q.dateIso = "" := by
  have hclean : clean_text r.date = "" := (clean_text_eq_empty_iff r.date).mpr hd
  have hdate : parse_date p r.date = ("", false) := by
    rw [parse_date_eq, hclean, hp]
    simp
  have hflag : rowHasIssue (normalizeRow p (defaultRow t r)) = false := by
    show ((parse_date p r.date).2 || (parse_amount r.amount).2) = false
    rw [hdate, ha]
    rfl
  refine ⟨?_, ?_, ?_⟩
  · unfold cleanBeforeDedup normRows effRows
    apply List.mem_filter.mpr
    refine ⟨List.mem_map_of_mem _ (List.mem_map_of_mem _ hr), ?_⟩
    rw [hflag]
    rfl
  · show (parse_date p r.date).1 = ""
    rw [hdate]
  · have hbd : clean_text " " = "" := by decide
    have hdate2 : parse_date p " " = ("", false) := by
      rw [parse_date_eq, hbd, hp]
      simp
    have ha2 : (parse_amount "").2 = false := by decide
    have hflag2 : rowHasIssue (normalizeRow p (defaultRow tBlankDate rowBlankDate)) = false := by
      show ((parse_date p " ").2 || (parse_amount "").2) = false
      rw [hdate2, ha2]
      rfl
    refine ⟨_, rfl, normalizeRow p (defaultRow tBlankDate rowBlankDate), ?_, ?_⟩
    · show normalizeRow p (defaultRow tBlankDate rowBlankDate) ∈
        dedupKeyed [] (cleanBeforeDedup p tBlankDate)
      have hfil : cleanBeforeDedup p tBlankDate =
          [normalizeRow p (defaultRow tBlankDate rowBlankDate)] := by
        show List.filter _ [normalizeRow p (defaultRow tBlankDate rowBlankDate)] = _
        rw [List.filter_cons, if_pos (by rw [hflag2]; rfl)]
        rfl
      rw [hfil]
      simp [dedupKeyed]
    · show (parse_date p " ").1 = ""
      rw [hdate2]

/-- Witness for C10 at the concrete blank-date table, under the concrete
`isoDateParse` library stand-in. -/
theorem blank_date_rows_clean_witness :
    normalizeRow isoDateParse (defaultRow tBlankDate rowBlankDate) ∈
      cleanBeforeDedup isoDateParse tBlankDate ∧
    (normalizeRow isoDateParse (defaultRow tBlankDate rowBlankDate)).dateIso = "" ∧
    ∃ out, transform_transactions isoDateParse tBlankDate = .ok out ∧
      ∃ q ∈ out.clean, q.dateIso = "" :=
  blank_date_rows_clean isoDateParse rfl tBlankDate rowBlankDate (by decide)
    (by decide) (by decide)

/-- Claim C3 (amended): the Monthly Trend view assigns every persisted
clean row — including rows with empty `date_iso`, which the SQL does not
exclude but groups under the empty month key — the month key made of the
first seven characters of its `date_iso`; each present key has exactly
one view row whose count is the number of rows with that key; and the
row counts sum to the clean-row count. -/
theorem monthly_trend_counts (rows : List TxnRow) :
    (∀ r ∈ rows, ∃ g ∈ monthly_trends rows, g.ym = strTake r.dateIso 7) ∧
    (∀ k ∈ (rows.map monthKey).dedup,
      ((monthly_trends rows).filter (fun g => g.ym == k)).map (fun g => g.rowCount) =
        [rows.countP (fun r => monthKey r == k)]) ∧
    ((monthly_trends rows).map (fun g => g.rowCount)).sum = rows.length := by
  refine ⟨?_, ?_, ?_⟩
  · intro r hr
    have hk : monthKey r ∈ (rows.map monthKey).dedup :=
      List.mem_dedup.mpr (List.mem_map_of_mem _ hr)
    have hperm := List.perm_insertionSort ymRel
      (((rows.map monthKey).dedup).map (monthlyGroup rows))
    exact ⟨monthlyGroup rows (monthKey r),
      hperm.mem_iff.mpr (List.mem_map_of_mem _ hk), rfl⟩
  · intro k hk
    unfold monthly_trends
    have hperm := List.perm_insertionSort ymRel
      (((rows.map monthKey).dedup).map (monthlyGroup rows))
    have hfil := hperm.filter (fun g => g.ym == k)
    rw [grouped_filter_eq ((rows.map monthKey).dedup) (monthlyGroup rows)
      (fun g => g.ym) (fun _ => rfl) k (List.nodup_dedup _) hk] at hfil
    rw [List.perm_singleton.mp hfil]
    simp [monthlyGroup, List.countP_eq_length_filter]
  · unfold monthly_trends
    have hperm := (List.perm_insertionSort ymRel
      (((rows.map monthKey).dedup).map (monthlyGroup rows))).map (fun g => g.rowCount)
    rw [hperm.sum_eq, List.map_map]
    exact grouped_counts_sum rows monthKey

/-- Witness for C3 at a one-row table with date `"2024-01-05"`. -/
theorem monthly_trend_counts_witness :
    (∃ g ∈ monthly_trends rowsMonthly, g.ym = strTake "2024-01-05" 7) ∧
    ((monthly_trends rowsMonthly).filter (fun g => g.ym == "2024-01")).map
        (fun g => g.rowCount) =
      [rowsMonthly.countP (fun r => monthKey r == "2024-01")] :=
  ⟨(monthly_trend_counts rowsMonthly).1 ⟨"2024-01-05", none, none⟩ (by decide),
   (monthly_trend_counts rowsMonthly).2.1 "2024-01" (by decide)⟩

/-- Claim C3 counterexample: a persisted clean row with empty `date_iso`
is not excluded from the Monthly Trend view — the view has a month row
with the empty key counting it. -/
theorem monthly_trend_empty_date_counterexample :
    (monthly_trends [rowEmptyDate]).map (fun g => (g.ym, g.rowCount)) = [("", 1)] := by
  decide

/-- Claim C8 (amended): the Category Summary buckets NULL and
space-blank categories (and whitespace-only raw categories, which the
Text Normalizer blanks before persistence) under the single grouping key
`"Uncategorized"`; when such a row exists there is exactly one such view
row; every view row's count is the number of rows whose bucketed key
matches it — so the `"Uncategorized"` count also absorbs rows whose
category is literally `"Uncategorized"` (see counterexample); and the
view is ordered by descending absolute rounded net total. -/
theorem category_summary_props (rows : List TxnRow) :
    (∀ c : Option String, c = none ∨ sqlTrimSpace (c.getD "") = "" →
      bucketCategory c = "Uncategorized") ∧
    (∀ raw : String, raw.data.all isPySpace = true →
      bucketCategory (some (clean_text raw)) = "Uncategorized") ∧
    ((∃ r ∈ rows, catKey r = "Uncategorized") →
      (category_summary rows).countP (fun g => g.category == "Uncategorized") = 1) ∧
    (∀ k ∈ (rows.map catKey).dedup,
      ((category_summary rows).filter (fun g => g.category == k)).map
          (fun g => g.rowCount) =
        [rows.countP (fun r => catKey r == k)]) ∧
    List.Sorted catRel (category_summary rows) := by
  refine ⟨?_, ?_, ?_, ?_, ?_⟩
  · intro c hc
    rcases hc with rfl | hblank
    · rfl
    · match c with
      | none => rfl
      | some str =>
        have hb : sqlTrimSpace str = "" := hblank
        simp [bucketCategory, hb]
  · intro raw hraw
    have hc : clean_text raw = "" := (clean_text_eq_empty_iff raw).mpr hraw
    rw [hc]
    decide
  · intro hex
    rcases hex with ⟨r, hr, hkey⟩
    unfold category_summary
    have hperm := List.perm_insertionSort catRel
      (((rows.map catKey).dedup).map (categoryGroup rows))
    rw [hperm.countP_eq]
    rw [List.countP_map]
    show ((rows.map catKey).dedup).countP (fun x => x == "Uncategorized") = 1
    rw [← List.count_eq_countP]
    apply List.count_eq_one_of_mem (List.nodup_dedup _)
    exact List.mem_dedup.mpr (hkey ▸ List.mem_map_of_mem _ hr)
  · intro k hk
    unfold category_summary
    have hperm := List.perm_insertionSort catRel
      (((rows.map catKey).dedup).map (categoryGroup rows))
    have hfil := hperm.filter (fun g => g.category == k)
    rw [grouped_filter_eq ((rows.map catKey).dedup) (categoryGroup rows)
      (fun g => g.category) (fun _ => rfl) k (List.nodup_dedup _) hk] at hfil
    rw [List.perm_singleton.mp hfil]
    simp [categoryGroup, List.countP_eq_length_filter]
  · exact List.sorted_insertionSort catRel _

/-- Witness for C8: a blank category row is bucketed, counted once, and
so is a whitespace-only raw category. -/
theorem category_summary_props_witness :
    bucketCategory (some " ") = "Uncategorized" ∧
    bucketCategory (some (clean_text " \t ")) = "Uncategorized" ∧
    (category_summary rowsCat).countP (fun g => g.category == "Uncategorized") = 1 ∧
    ((category_summary rowsCat).filter (fun g => g.category == "Uncategorized")).map
        (fun g => g.rowCount) =
      [rowsCat.countP (fun r => catKey r == "Uncategorized")] :=
  ⟨(category_summary_props rowsCat).1 (some " ") (Or.inr (by decide)),
   (category_summary_props rowsCat).2.1 " \t " (by decide),
   (category_summary_props rowsCat).2.2.1
     ⟨⟨"2024-01-05", none, some ""⟩, by decide, by decide⟩,
   (category_summary_props rowsCat).2.2.2.1 "Uncategorized" (by decide)⟩

/-- Claim C8 counterexample: a persisted row whose category is literally
`"Uncategorized"` merges into the blank bucket, so the bucket's row
count (2) exceeds the number of null/blank/whitespace-only rows (1). -/
theorem category_summary_literal_counterexample :
    (category_summary rowsCatCx).map (fun g => (g.category, g.rowCount)) =
      [("Uncategorized", 2)] ∧
    rowsCatCx.countP
      (fun r => r.category == none || sqlTrimSpace (r.category.getD "") == "") = 1 ∧
    (2 : ℕ) ≠ 1 := ⟨by decide, by decide, by decide⟩

end FinPipe
